import Mathlib

/-!
Verification development for the youpick API server.

The definitions below are a shallow embedding of the JavaScript source:
* `validateItem`, `hashPassword` and the route handlers come from
  `product/api/server.js`;
* `getSpace`, the datastore-level `addItem` (here `dsAddItem`) and the
  splice/`lastPicked` logic of `removeItem` come from
  `product/api/datastore.js`.
JavaScript strings are modelled as Lean `String`s; `.length` is modelled by
UTF-16 code-unit count; machine integers do not overflow in the ranges used
(indices, list lengths), so `Nat`/`Int` are used directly.  The Postgres
row-lock (`SELECT ... FOR UPDATE` inside `BEGIN`/`COMMIT`) is modelled by
treating each datastore mutation as one atomic state transformation.
-/

deriving instance DecidableEq for Except

namespace Youpick

/-! ### JavaScript string primitives -/

/-- Whitespace recognised by JavaScript `String.prototype.trim`:
the ECMAScript WhiteSpace and LineTerminator productions. -/
def isJsWhitespace (c : Char) : Bool :=
  c == ' ' || c == '\t' || c == '\n' || c.toNat == 11 || c.toNat == 12 ||
  c == '\r' || c.toNat == 0xa0 || c.toNat == 0x1680 ||
  (0x2000 ≤ c.toNat && c.toNat ≤ 0x200a) || c.toNat == 0x2028 ||
  c.toNat == 0x2029 || c.toNat == 0x202f || c.toNat == 0x205f ||
  c.toNat == 0x3000 || c.toNat == 0xfeff

/-- Model of JavaScript `trim` on a character list: drop whitespace from the
front, then from the back. -/
def jsTrimList (l : List Char) : List Char :=
  ((l.dropWhile isJsWhitespace).reverse.dropWhile isJsWhitespace).reverse

/-- Model of JavaScript `String.prototype.trim`. -/
def jsTrim (s : String) : String :=
  (jsTrimList s.toList).asString

/-- Number of UTF-16 code units one code point occupies (JavaScript
`String.prototype.length` counts code units). -/
def utf16CharLen (c : Char) : Nat :=
  if c.toNat < 65536 then 1 else 2

/-- Model of JavaScript `.length` on strings: total UTF-16 code units. -/
def utf16Len (s : String) : Nat :=
  (s.toList.map utf16CharLen).sum

/-- ASCII-only lower-casing of one character.  The `i` flag of a non-Unicode
JavaScript regex canonicalises exactly the ASCII letters for the ASCII-only
patterns used in `validateItem`. -/
def asciiLowerChar (c : Char) : Char :=
  if 'A' ≤ c ∧ c ≤ 'Z' then Char.ofNat (c.toNat + 32) else c

/-- Characters of a string, ASCII-lower-cased. -/
def lowerChars (s : String) : List Char :=
  s.toList.map asciiLowerChar

/-- Check whether `pat` occurs at the start of `l`. -/
def startsWithL : List Char → List Char → Bool
  | [], _ => true
  | _ :: _, [] => false
  | p :: ps, c :: cs => p == c && startsWithL ps cs

/-- Check whether `pat` occurs contiguously anywhere inside `l`
(substring search, as a regex literal alternative does). -/
def containsSub (pat : List Char) : List Char → Bool
  | [] => startsWithL pat []
  | c :: rest => startsWithL pat (c :: rest) || containsSub pat rest

/-- Model of the denylist test `/<script|<iframe|javascript:/i.test(trimmed)`
from `server.js`: case-insensitive substring match of any alternative. -/
def hasUnsafe (s : String) : Bool :=
  containsSub "<script".toList (lowerChars s) ||
  containsSub "<iframe".toList (lowerChars s) ||
  containsSub "javascript:".toList (lowerChars s)

/-- Occurrence of `pat` as a contiguous segment of `l` (the specification's
notion of a substring match). -/
def occursIn (pat l : List Char) : Prop :=
  ∃ l₁ l₂, l = l₁ ++ pat ++ l₂

/-- Specification-level reading of the denylist: the value contains, up to
ASCII case, a script tag, an iframe tag, or a `javascript:` URI scheme. -/
def unsafeOccurs (s : String) : Prop :=
  occursIn "<script".toList (lowerChars s) ∨
  occursIn "<iframe".toList (lowerChars s) ∨
  occursIn "javascript:".toList (lowerChars s)

/-! ### Item validator (`validateItem` in `server.js`) -/

/-- Failure modes of the item validator.  The code's "Item must be a string"
branch is unrepresentable here because the input type is `String`. -/
inductive ItemError where
  | empty
  | tooLong
  | unsafeContent
deriving DecidableEq

/-- Model of `validateItem` from `server.js`: trim, reject empty, reject
length over 500 UTF-16 units, reject denylisted content, else return the
trimmed value. -/
def validateItem (item : String) : Except ItemError String :=
  let trimmed := jsTrim item
  if trimmed = "" then .error .empty
  else if 500 < utf16Len trimmed then .error .tooLong
  else if hasUnsafe trimmed then .error .unsafeContent
  else .ok trimmed

/-! ### Data model -/

/-- A recorded pick, as built by the `POST /api/picked` handler. -/
structure Picked where
  item : String
  index : Nat
  timestamp : String
  space : String
deriving DecidableEq

/-- Persisted per-namespace state: the `data` JSON column of one row. -/
structure SpaceData where
  items : List String
  lastPicked : Option Picked
deriving DecidableEq

/-- The space a fresh namespace key receives on first access. -/
def emptySpace : SpaceData :=
  { items := [], lastPicked := none }

/-! ### Space store (`datastore.js`) -/

/-- The spaces table: association list from space id to its data. -/
def Store := List (String × SpaceData)

/-- Row lookup by primary key (`SELECT ... WHERE space_id = $1`). -/
def lookupStore : Store → String → Option SpaceData
  | [], _ => none
  | (k', v) :: rest, k => if k' = k then some v else lookupStore rest k

/-- Model of `getSpace`: return the existing row, or insert and return an
empty space for a previously-unseen key. -/
def getSpace (st : Store) (k : String) : SpaceData × Store :=
  match lookupStore st k with
  | some sp => (sp, st)
  | none => (emptySpace, (k, emptySpace) :: st)

/-- Model of the `GET /api/items` handler: the items of the space. -/
def listItems (st : Store) (k : String) : List String :=
  (getSpace st k).1.items

/-- Model of the `GET /api/picked` handler: the last pick, or absent. -/
def getPicked (st : Store) (k : String) : Option Picked :=
  (getSpace st k).1.lastPicked

/-- Model of the datastore-level `addItem`: inside one transaction, re-read
the row under a lock and push the item.  The handler's pre-checks are not
part of this transaction. -/
def dsAddItem (sp : SpaceData) (item : String) : SpaceData :=
  { sp with items := sp.items ++ [item] }

/-! ### Route handlers (`server.js`), acting on one space -/

/-- Failure modes of `POST /api/items`. -/
inductive AddError where
  | validation (e : ItemError)
  | duplicateItem
  | capacityExceeded
deriving DecidableEq

/-- Model of the `POST /api/items` handler composed with the datastore
`addItem`: validate, reject duplicates, reject at capacity 1000, otherwise
append the validated value and return the updated items.  The first
component is the space as stored afterwards (unchanged on failure). -/
def postItem (sp : SpaceData) (raw : String) : SpaceData × Except AddError (List String) :=
  match validateItem raw with
  | .error e => (sp, .error (.validation e))
  | .ok v =>
    if v ∈ sp.items then (sp, .error .duplicateItem)
    else if 1000 ≤ sp.items.length then (sp, .error .capacityExceeded)
    else (dsAddItem sp v, .ok (sp.items ++ [v]))

/-- Failure modes of `DELETE /api/items/:index`. -/
inductive RemoveError where
  | invalidIndex
  | notFound
deriving DecidableEq

/-- Model of the `DELETE /api/items/:index` handler composed with the
datastore `removeItem`: reject a negative index, reject an index past the
end, otherwise splice out the element at `index` and clear `lastPicked`
whenever its recorded index is `>=` the removed index.  The first component
is the space as stored afterwards (unchanged on failure). -/
def deleteItem (sp : SpaceData) (index : Int) : SpaceData × Except RemoveError (String × List String) :=
  if index < 0 then (sp, .error .invalidIndex)
  else
    let i := index.toNat
    if sp.items.length ≤ i then (sp, .error .notFound)
    else
      let deleted := sp.items.getD i ""
      let items' := sp.items.eraseIdx i
      let lp' : Option Picked :=
        match sp.lastPicked with
        | some p => if i ≤ p.index then none else some p
        | none => none
      ({ items := items', lastPicked := lp' }, .ok (deleted, items'))

/-- Failure modes of `POST /api/picked`. -/
inductive PickError where
  | invalidIndex
  | validation (e : ItemError)
  | mismatch
deriving DecidableEq

/-- Model of the `POST /api/picked` handler composed with the datastore
`updateLastPicked`: reject a negative index, validate the item, reject when
the index is past the end or the stored item at that index differs from the
validated value, otherwise record the pick.  `sid` is the namespace key and
`now` the current timestamp.  The first component is the space as stored
afterwards (unchanged on failure). -/
def postPicked (sp : SpaceData) (sid raw : String) (index : Int) (now : String) :
    SpaceData × Except PickError Picked :=
  if index < 0 then (sp, .error .invalidIndex)
  else
    match validateItem raw with
    | .error e => (sp, .error (.validation e))
    | .ok v =>
      let i := index.toNat
      if sp.items.length ≤ i ∨ sp.items.getD i "" ≠ v then (sp, .error .mismatch)
      else
        let p : Picked := { item := v, index := i, timestamp := now, space := sid.take 8 }
        ({ sp with lastPicked := some p }, .ok p)

/-! ### Namespace key derivation (`hashPassword` in `server.js`)

The handler calls Node's `crypto.createHash('sha256')`; SHA-256 (FIPS 180-4)
is embedded here directly, over the UTF-8 bytes of the password. -/

/-- Truncate to a 32-bit word. -/
def w32 (x : Nat) : Nat := x % 4294967296

/-- Rotate a 32-bit word right by `n` bits. -/
def rotr (n x : Nat) : Nat := x / 2 ^ n + x % 2 ^ n * 2 ^ (32 - n)

/-- SHA-256 choice function. -/
def ch (x y z : Nat) : Nat := (x &&& y) ^^^ ((x ^^^ 4294967295) &&& z)

/-- SHA-256 majority function. -/
def maj (x y z : Nat) : Nat := (x &&& y) ^^^ (x &&& z) ^^^ (y &&& z)

/-- SHA-256 Σ₀. -/
def bigSigma0 (x : Nat) : Nat := rotr 2 x ^^^ rotr 13 x ^^^ rotr 22 x

/-- SHA-256 Σ₁. -/
def bigSigma1 (x : Nat) : Nat := rotr 6 x ^^^ rotr 11 x ^^^ rotr 25 x

/-- SHA-256 σ₀. -/
def smallSigma0 (x : Nat) : Nat := rotr 7 x ^^^ rotr 18 x ^^^ x / 2 ^ 3

/-- SHA-256 σ₁. -/
def smallSigma1 (x : Nat) : Nat := rotr 17 x ^^^ rotr 19 x ^^^ x / 2 ^ 10

/-- SHA-256 round constants (FIPS 180-4 section 4.2.2, written in decimal). -/
def kConsts : List Nat :=
  [1116352408, 1899447441, 3049323471, 3921009573, 961987163,
   1508970993, 2453635748, 2870763221, 3624381080, 310598401,
   607225278, 1426881987, 1925078388, 2162078206, 2614888103,
   3248222580, 3835390401, 4022224774, 264347078, 604807628,
   770255983, 1249150122, 1555081692, 1996064986, 2554220882,
   2821834349, 2952996808, 3210313671, 3336571891, 3584528711,
   113926993, 338241895, 666307205, 773529912, 1294757372,
   1396182291, 1695183700, 1986661051, 2177026350, 2456956037,
   2730485921, 2820302411, 3259730800, 3345764771, 3516065817,
   3600352804, 4094571909, 275423344, 430227734, 506948616,
   659060556, 883997877, 958139571, 1322822218, 1537002063,
   1747873779, 1955562222, 2024104815, 2227730452, 2361852424,
   2428436474, 2756734187, 3204031479, 3329325298]

/-- The eight 32-bit words of the SHA-256 state. -/
structure Hash8 where
  a : Nat
  b : Nat
  c : Nat
  d : Nat
  e : Nat
  f : Nat
  g : Nat
  h : Nat
deriving DecidableEq

/-- Initial SHA-256 state. -/
def h0 : Hash8 :=
  { a := 1779033703, b := 3144134277, c := 1013904242, d := 2773480762,
    e := 1359893119, f := 2600822924, g := 528734635, h := 1541459225 }

/-- Big-endian byte expansion: `k` bytes of `v`, most significant first. -/
def beBytes : Nat → Nat → List Nat
  | 0, _ => []
  | k + 1, v => beBytes k (v / 256) ++ [v % 256]

/-- Group bytes four at a time into big-endian 32-bit words. -/
def bytesToWords : List Nat → List Nat
  | a :: b :: c :: d :: rest => (((a * 256 + b) * 256 + c) * 256 + d) :: bytesToWords rest
  | _ => []

/-- Message-schedule extension: push `k` further words onto `w`. -/
def extendW : Nat → Array Nat → Array Nat
  | 0, w => w
  | k + 1, w =>
    let i := w.size
    let v := w32 (smallSigma1 (w.getD (i - 2) 0) + w.getD (i - 7) 0 +
      smallSigma0 (w.getD (i - 15) 0) + w.getD (i - 16) 0)
    extendW k (w.push v)

/-- One SHA-256 compression round. -/
def shaRound (st : Hash8) (kw : Nat × Nat) : Hash8 :=
  let t1 := w32 (st.h + bigSigma1 st.e + ch st.e st.f st.g + kw.1 + kw.2)
  let t2 := w32 (bigSigma0 st.a + maj st.a st.b st.c)
  { a := w32 (t1 + t2), b := st.a, c := st.b, d := st.c,
    e := w32 (st.d + t1), f := st.e, g := st.f, h := st.g }

/-- Process one 64-byte block. -/
def compress (st : Hash8) (block : List Nat) : Hash8 :=
  let w := (extendW 48 (Array.mk (bytesToWords block))).toList
  let r := (kConsts.zip w).foldl shaRound st
  { a := w32 (st.a + r.a), b := w32 (st.b + r.b), c := w32 (st.c + r.c),
    d := w32 (st.d + r.d), e := w32 (st.e + r.e), f := w32 (st.f + r.f),
    g := w32 (st.g + r.g), h := w32 (st.h + r.h) }

/-- SHA-256 padding: append `0x80`, zero bytes up to 56 mod 64, then the
bit length as eight big-endian bytes. -/
def padMsg (m : List Nat) : List Nat :=
  m ++ 128 :: List.replicate ((119 - m.length % 64) % 64) 0 ++ beBytes 8 (8 * m.length)

/-- Split a byte list into successive 64-byte blocks; `fuel` bounds the
number of blocks (structural recursion so the kernel can evaluate it). -/
def chunks64Fuel : Nat → List Nat → List (List Nat)
  | 0, _ => []
  | _, [] => []
  | fuel + 1, a :: rest => (a :: rest).take 64 :: chunks64Fuel fuel (rest.drop 63)

/-- Split a byte list into successive 64-byte blocks. -/
def chunks64 (l : List Nat) : List (List Nat) :=
  chunks64Fuel l.length l

/-- Serialise the final state as 32 digest bytes. -/
def hashToBytes (st : Hash8) : List Nat :=
  beBytes 4 st.a ++ beBytes 4 st.b ++ beBytes 4 st.c ++ beBytes 4 st.d ++
  beBytes 4 st.e ++ beBytes 4 st.f ++ beBytes 4 st.g ++ beBytes 4 st.h

/-- SHA-256 digest of a byte list. -/
def sha256Bytes (m : List Nat) : List Nat :=
  hashToBytes ((chunks64 (padMsg m)).foldl compress h0)

/-- UTF-8 encoding of one code point, as byte values (mirrors core's
`String.utf8EncodeChar`, over `Nat`). -/
def utf8EncodeCharNat (n : Nat) : List Nat :=
  if n ≤ 0x7f then [n]
  else if n ≤ 0x7ff then
    [((n >>> 6) &&& 0x1f) ||| 0xc0, (n &&& 0x3f) ||| 0x80]
  else if n ≤ 0xffff then
    [((n >>> 12) &&& 0x0f) ||| 0xe0, ((n >>> 6) &&& 0x3f) ||| 0x80,
     (n &&& 0x3f) ||| 0x80]
  else
    [((n >>> 18) &&& 0x07) ||| 0xf0, ((n >>> 12) &&& 0x3f) ||| 0x80,
     ((n >>> 6) &&& 0x3f) ||| 0x80, (n &&& 0x3f) ||| 0x80]

/-- UTF-8 bytes of a string (what `hash.update(password)` digests). -/
def strBytes (s : String) : List Nat :=
  s.toList.flatMap (fun c => utf8EncodeCharNat c.toNat)

/-- Lower-case hex digit for a nibble. -/
def hexDigit (n : Nat) : Char :=
  "0123456789abcdef".toList.getD n '0'

/-- Two hex digits of a byte. -/
def byteToHex (b : Nat) : List Char :=
  [hexDigit (b / 16 % 16), hexDigit (b % 16)]

/-- Hex encoding of a byte list (`digest('hex')`). -/
def hexEncode : List Nat → List Char
  | [] => []
  | b :: rest => byteToHex b ++ hexEncode rest

/-- Model of `hashPassword` from `server.js`: the first 16 characters of the
hex-encoded SHA-256 digest of the password. -/
def hashPassword (password : String) : String :=
  ((hexEncode (sha256Bytes (strBytes password))).take 16).asString

/-! ### Operation sequences over one space -/

/-- One Space Service operation, as issued through the handlers. -/
inductive Op where
  | add (raw : String)
  | remove (idx : Int)
  | pick (sid raw : String) (idx : Int) (now : String)

/-- The space resulting from one handler call (failures leave it as is). -/
def applyOp (sp : SpaceData) : Op → SpaceData
  | .add raw => (postItem sp raw).1
  | .remove idx => (deleteItem sp idx).1
  | .pick sid raw idx now => (postPicked sp sid raw idx now).1

/-- Space reached by running the add-item handler once per text, in the
given serialisation order, starting from a fresh space (failed calls leave
the space as it was). -/
def addFold (texts : List String) : SpaceData :=
  texts.foldl (fun s t => (postItem s t).1) emptySpace

/-- Decimal digit character for `d % 10`. -/
def digitChar (d : Nat) : Char :=
  Char.ofNat (48 + d % 10)

/-- Four-decimal-digit rendering of `n` (pairwise distinct for `n < 10000`),
used to build large families of validator-clean item texts. -/
def natText (n : Nat) : String :=
  [digitChar (n / 1000), digitChar (n / 100), digitChar (n / 10), digitChar n].asString

/-- A family of 1001 pairwise-distinct validator-clean item texts. -/
def capTexts : List String :=
  (List.range 1001).map natText

/-- Model of `UPDATE spaces SET data = $2 WHERE space_id = $1`. -/
def updateRow (st : Store) (k : String) (sp : SpaceData) : Store :=
  st.map (fun kv => if kv.1 = k then (k, sp) else kv)

/-- Model of `INSERT INTO spaces (space_id, data) VALUES ($1, $2)` for a new
empty space: `space_id` is the table's primary key (`docs/schema.sql`), so
inserting a key that is already present raises a unique violation. -/
def insertSpaceRow (st : Store) (k : String) : Except Unit Store :=
  match lookupStore st k with
  | some _ => .error ()
  | none => .ok ((k, emptySpace) :: st)

/-- Modelled interleaving of two concurrent first-access `POST /api/items`
requests R1 (item `t1`) and R2 (item `t2`) on the fresh key `k`.  `getSpace`
issues its SELECT and its INSERT as two separate non-transactional queries,
so both SELECTs can run before either INSERT; here both see no row.  R1's
INSERT succeeds, its handler proceeds on the empty space it read, and its
locked `addItem` transaction commits its write; R2's INSERT then hits the
`space_id` primary-key violation, `getSpace` rethrows the error, and R2's
handler answers 500 without storing `t2`.  Returns the final store and
whether R2's write happened. -/
def raceFirstAccess (k t1 t2 : String) : Store × Bool :=
  match insertSpaceRow [] k with
  | .error _ => ([], false)
  | .ok st1 =>
    let st2 := updateRow st1 k (postItem emptySpace t1).1
    match insertSpaceRow st2 k with
    | .error _ => (st2, false)
    | .ok st3 => (updateRow st3 k (postItem emptySpace t2).1, true)

/-! ### Helper lemmas about `dropWhile` and trimming -/

/-- Head of a `dropWhile` result never satisfies the predicate. -/
theorem dropWhile_head_false {α : Type} (p : α → Bool) :
    ∀ (l : List α) (c : α) (rest : List α), l.dropWhile p = c :: rest → p c = false := by
  intro l
  induction l with
  | nil => simp [List.dropWhile]
  | cons a t ih =>
    intro c rest h
    rw [List.dropWhile_cons] at h
    cases hp : p a with
    | true =>
      simp only [hp, if_true] at h
      exact ih c rest h
    | false =>
      simp only [hp, Bool.false_eq_true, if_false, List.cons.injEq] at h
      rw [← h.1]
      exact hp

/-- A list whose head fails the predicate is unchanged by `dropWhile`. -/
theorem dropWhile_eq_self {α : Type} (p : α → Bool) (l : List α)
    (h : ∀ c rest, l = c :: rest → p c = false) : l.dropWhile p = l := by
  cases l with
  | nil => rfl
  | cons a t => simp [List.dropWhile_cons, h a t rfl]

/-- Dropping a prefix by predicate twice is the same as dropping it once. -/
theorem dropWhile_idem {α : Type} (p : α → Bool) (l : List α) :
    (l.dropWhile p).dropWhile p = l.dropWhile p :=
  dropWhile_eq_self p _ (fun c rest h => dropWhile_head_false p l c rest h)

/-- Any list splits into a predicate-satisfying prefix and its `dropWhile`. -/
theorem dropWhile_decomp {α : Type} (p : α → Bool) (l : List α) :
    ∃ s, l = s ++ l.dropWhile p ∧ s.all p = true := by
  induction l with
  | nil => exact ⟨[], rfl, rfl⟩
  | cons a t ih =>
    cases hp : p a with
    | true =>
      obtain ⟨s, hs, hall⟩ := ih
      refine ⟨a :: s, ?_, ?_⟩
      · simp only [List.dropWhile_cons, hp, if_true, List.cons_append]
        rw [← hs]
      · simp [hp, hall]
    | false =>
      exact ⟨[], by simp [List.dropWhile_cons, hp], rfl⟩

/-- The left-trimmed list is the trimmed list followed by trailing
whitespace. -/
theorem dropWhile_eq_trim_append (l : List Char) :
    ∃ suf, l.dropWhile isJsWhitespace = jsTrimList l ++ suf ∧
      suf.all isJsWhitespace = true := by
  obtain ⟨s, hs, hall⟩ :=
    dropWhile_decomp isJsWhitespace (l.dropWhile isJsWhitespace).reverse
  refine ⟨s.reverse, ?_, by simpa using hall⟩
  have h := congrArg List.reverse hs
  simpa [jsTrimList] using h

/-- JavaScript `trim` only removes leading and trailing whitespace. -/
theorem jsTrimList_decomp (l : List Char) :
    ∃ pre suf, l = pre ++ jsTrimList l ++ suf ∧
      pre.all isJsWhitespace = true ∧ suf.all isJsWhitespace = true := by
  obtain ⟨pre, hpre, hpall⟩ := dropWhile_decomp isJsWhitespace l
  obtain ⟨suf, hsuf, hsall⟩ := dropWhile_eq_trim_append l
  refine ⟨pre, suf, ?_, hpall, hsall⟩
  conv_lhs => rw [hpre, hsuf]
  rw [List.append_assoc]

/-- The first character of a trimmed list is not whitespace. -/
theorem jsTrimList_head_false (l : List Char) (c : Char) (rest : List Char)
    (h : jsTrimList l = c :: rest) : isJsWhitespace c = false := by
  obtain ⟨suf, hsuf, _⟩ := dropWhile_eq_trim_append l
  rw [h] at hsuf
  exact dropWhile_head_false isJsWhitespace l c (rest ++ suf) (by simpa using hsuf)

/-- The last character of a trimmed list is not whitespace. -/
theorem jsTrimList_revHead_false (l : List Char) (c : Char) (rest : List Char)
    (h : (jsTrimList l).reverse = c :: rest) : isJsWhitespace c = false := by
  have hrw : (jsTrimList l).reverse =
      ((l.dropWhile isJsWhitespace).reverse).dropWhile isJsWhitespace := by
    simp [jsTrimList]
  rw [hrw] at h
  exact dropWhile_head_false isJsWhitespace _ c rest h

/-- Trimming is idempotent on character lists. -/
theorem jsTrimList_idem (l : List Char) :
    jsTrimList (jsTrimList l) = jsTrimList l := by
  have h1 : (jsTrimList l).dropWhile isJsWhitespace = jsTrimList l :=
    dropWhile_eq_self _ _ (fun c rest h => jsTrimList_head_false l c rest h)
  have hrw : (jsTrimList l).reverse =
      ((l.dropWhile isJsWhitespace).reverse).dropWhile isJsWhitespace := by
    simp [jsTrimList]
  have h2 : (jsTrimList l).reverse.dropWhile isJsWhitespace = (jsTrimList l).reverse := by
    rw [hrw]
    exact dropWhile_idem isJsWhitespace _
  calc jsTrimList (jsTrimList l)
      = (((jsTrimList l).dropWhile isJsWhitespace).reverse.dropWhile
          isJsWhitespace).reverse := rfl
    _ = ((jsTrimList l).reverse.dropWhile isJsWhitespace).reverse := by rw [h1]
    _ = ((jsTrimList l).reverse).reverse := by rw [h2]
    _ = jsTrimList l := by simp

/-- Character list of a trimmed string. -/
theorem toList_jsTrim (s : String) : (jsTrim s).toList = jsTrimList s.toList := rfl

/-- Trimming is idempotent on strings. -/
theorem jsTrim_idem (s : String) : jsTrim (jsTrim s) = jsTrim s := by
  show (jsTrimList (jsTrimList s.toList)).asString = (jsTrimList s.toList).asString
  rw [jsTrimList_idem]

/-! ### Helper lemmas about substring search and the validator -/

/-- Correctness of `startsWithL`: it decides existence of a completion. -/
theorem startsWithL_iff (pat : List Char) :
    ∀ l, startsWithL pat l = true ↔ ∃ r, l = pat ++ r := by
  induction pat with
  | nil =>
    intro l
    simp [startsWithL]
  | cons p ps ih =>
    intro l
    cases l with
    | nil => simp [startsWithL]
    | cons c cs =>
      simp only [startsWithL, Bool.and_eq_true, beq_iff_eq, ih cs, List.cons_append,
        List.cons.injEq]
      constructor
      · rintro ⟨hpc, r, hr⟩
        exact ⟨r, hpc.symm, hr⟩
      · rintro ⟨r, hcp, hr⟩
        exact ⟨hcp.symm, r, hr⟩

/-- Correctness of `containsSub`: it decides occurrence as a contiguous
segment. -/
theorem containsSub_iff (pat : List Char) :
    ∀ l, containsSub pat l = true ↔ occursIn pat l := by
  intro l
  induction l with
  | nil =>
    simp only [containsSub, startsWithL_iff, occursIn]
    constructor
    · rintro ⟨r, hr⟩
      exact ⟨[], r, by simpa using hr⟩
    · rintro ⟨l₁, l₂, h⟩
      have h' := List.append_eq_nil.mp (List.append_eq_nil.mp h.symm).1
      exact ⟨[], by simp [h'.2]⟩
  | cons c rest ih =>
    simp only [containsSub, Bool.or_eq_true, startsWithL_iff, ih, occursIn]
    constructor
    · rintro (⟨r, hr⟩ | ⟨l₁, l₂, h⟩)
      · exact ⟨[], r, by simpa using hr⟩
      · exact ⟨c :: l₁, l₂, by simp [h]⟩
    · rintro ⟨l₁, l₂, h⟩
      cases l₁ with
      | nil =>
        left
        exact ⟨l₂, by simpa using h⟩
      | cons a l₁' =>
        right
        simp only [List.cons_append, List.cons.injEq] at h
        exact ⟨l₁', l₂, h.2⟩

/-- Correctness of `hasUnsafe` against the specification-level occurrence
predicate. -/
theorem hasUnsafe_iff (s : String) : hasUnsafe s = true ↔ unsafeOccurs s := by
  simp only [hasUnsafe, unsafeOccurs, Bool.or_eq_true, containsSub_iff]
  tauto

/-- Full characterisation of validator success. -/
theorem validateItem_ok_iff (x v : String) :
    validateItem x = .ok v ↔
      v = jsTrim x ∧ jsTrim x ≠ "" ∧ utf16Len (jsTrim x) ≤ 500 ∧
      hasUnsafe (jsTrim x) = false := by
  unfold validateItem
  by_cases h1 : jsTrim x = ""
  · simp [h1]
  · by_cases h2 : 500 < utf16Len (jsTrim x)
    · simp only [h1, if_false, h2, if_true]
      constructor
      · intro h
        exact absurd h (by simp)
      · intro h
        omega
    · by_cases h3 : hasUnsafe (jsTrim x)
      · simp [h1, h2, h3]
      · simp only [h1, if_false, h2, if_true, h3]
        constructor
        · intro h
          exact ⟨(Except.ok.inj h).symm, h1, by omega, by simp [h3]⟩
        · intro h
          rw [h.1]
          simp

/-- Characterisation of the `Empty` failure. -/
theorem validateItem_empty_iff (x : String) :
    validateItem x = .error .empty ↔ jsTrim x = "" := by
  unfold validateItem
  by_cases h1 : jsTrim x = ""
  · simp [h1]
  · by_cases h2 : 500 < utf16Len (jsTrim x)
    · simp [h1, h2]
    · by_cases h3 : hasUnsafe (jsTrim x) <;> simp [h1, h2, h3]

/-- Characterisation of the `TooLong` failure. -/
theorem validateItem_tooLong_iff (x : String) :
    validateItem x = .error .tooLong ↔ jsTrim x ≠ "" ∧ 500 < utf16Len (jsTrim x) := by
  unfold validateItem
  by_cases h1 : jsTrim x = ""
  · simp [h1]
  · by_cases h2 : 500 < utf16Len (jsTrim x)
    · simp [h1, h2]
    · by_cases h3 : hasUnsafe (jsTrim x) <;> simp [h1, h2, h3]

/-- Characterisation of the `UnsafeContent` failure. -/
theorem validateItem_unsafe_iff (x : String) :
    validateItem x = .error .unsafeContent ↔
      jsTrim x ≠ "" ∧ utf16Len (jsTrim x) ≤ 500 ∧ hasUnsafe (jsTrim x) = true := by
  unfold validateItem
  by_cases h1 : jsTrim x = ""
  · simp [h1]
  · by_cases h2 : 500 < utf16Len (jsTrim x)
    · simp [h1, h2]
    · by_cases h3 : hasUnsafe (jsTrim x) <;> simp [h1, h2, h3] <;> omega

/-! ### Helper lemmas for the digest -/

/-- Big-endian byte expansion always yields `k` bytes. -/
theorem beBytes_length (k : Nat) : ∀ v, (beBytes k v).length = k := by
  induction k with
  | zero => intro v; rfl
  | succ k ih => intro v; simp [beBytes, ih]

/-- The serialised digest is always 32 bytes. -/
theorem hashToBytes_length (st : Hash8) : (hashToBytes st).length = 32 := by
  simp [hashToBytes, beBytes_length]

/-- SHA-256 digests are always 32 bytes. -/
theorem sha256Bytes_length (m : List Nat) : (sha256Bytes m).length = 32 :=
  hashToBytes_length _

/-- Hex encoding doubles the length. -/
theorem hexEncode_length (bs : List Nat) : (hexEncode bs).length = 2 * bs.length := by
  induction bs with
  | nil => rfl
  | cons b rest ih =>
    simp [hexEncode, byteToHex, ih]
    omega

/-- Every hex digit is one of the sixteen lower-case hex characters. -/
theorem hexDigit_mem (n : Nat) : hexDigit n ∈ "0123456789abcdef".toList := by
  by_cases h : n < ("0123456789abcdef".toList).length
  · rw [hexDigit, List.getD_eq_getElem _ _ h]
    exact List.getElem_mem h
  · rw [hexDigit, List.getD_eq_default _ _ (Nat.le_of_not_lt h)]
    decide

/-- Every character of a hex encoding is a lower-case hex character. -/
theorem hexEncode_mem (bs : List Nat) :
    ∀ c ∈ hexEncode bs, c ∈ "0123456789abcdef".toList := by
  induction bs with
  | nil => simp [hexEncode]
  | cons b rest ih =>
    intro c hc
    simp only [hexEncode, byteToHex, List.cons_append, List.nil_append,
      List.mem_cons] at hc
    rcases hc with h | h | h
    · rw [h]; exact hexDigit_mem _
    · rw [h]; exact hexDigit_mem _
    · exact ih c h

/-- String length of a packed character list. -/
theorem length_asString (l : List Char) : l.asString.length = l.length := rfl

/-! ### Helper lemmas for sequences of additions -/

/-- Digit characters are code points 48 to 57. -/
theorem digitChar_toNat (d : Nat) : (digitChar d).toNat = 48 + d % 10 := by
  unfold digitChar
  generalize hr : d % 10 = r
  have h : r < 10 := by omega
  interval_cases r <;> decide

/-- Digit characters are not JavaScript whitespace. -/
theorem isJsWhitespace_digitChar (d : Nat) : isJsWhitespace (digitChar d) = false := by
  unfold digitChar
  generalize hr : d % 10 = r
  have h : r < 10 := by omega
  interval_cases r <;> decide

/-- Digit characters are fixed by ASCII lower-casing. -/
theorem asciiLower_digitChar (d : Nat) : asciiLowerChar (digitChar d) = digitChar d := by
  unfold digitChar
  generalize hr : d % 10 = r
  have h : r < 10 := by omega
  interval_cases r <;> decide

/-- Digit characters occupy one UTF-16 code unit. -/
theorem utf16CharLen_digitChar (d : Nat) : utf16CharLen (digitChar d) = 1 := by
  unfold digitChar
  generalize hr : d % 10 = r
  have h : r < 10 := by omega
  interval_cases r <;> decide

/-- A list without whitespace characters is unchanged by trimming. -/
theorem jsTrimList_eq_self (l : List Char)
    (h : ∀ c ∈ l, isJsWhitespace c = false) : jsTrimList l = l := by
  have h1 : l.dropWhile isJsWhitespace = l :=
    dropWhile_eq_self isJsWhitespace l
      (fun c rest hc => h c (by rw [hc]; exact List.mem_cons_self c rest))
  have h2 : l.reverse.dropWhile isJsWhitespace = l.reverse :=
    dropWhile_eq_self isJsWhitespace l.reverse
      (fun c rest hc => h c (List.mem_reverse.mp
        (show c ∈ l.reverse by rw [hc]; exact List.mem_cons_self c rest)))
  unfold jsTrimList
  rw [h1, h2, List.reverse_reverse]

/-- A pattern longer than the text never occurs inside it. -/
theorem containsSub_eq_false_of_short (pat l : List Char)
    (h : l.length < pat.length) : containsSub pat l = false := by
  cases hc : containsSub pat l with
  | false => rfl
  | true =>
    obtain ⟨l₁, l₂, hl⟩ := (containsSub_iff pat l).mp hc
    rw [hl] at h
    simp only [List.length_append] at h
    omega

/-- Digit-only texts never match the denylist. -/
theorem hasUnsafe_natText (n : Nat) : hasUnsafe (natText n) = false := by
  have htl : (natText n).toList =
      [digitChar (n / 1000), digitChar (n / 100), digitChar (n / 10), digitChar n] := rfl
  have hlc : lowerChars (natText n) = (natText n).toList := by
    show (natText n).toList.map asciiLowerChar = (natText n).toList
    rw [htl]
    simp [asciiLower_digitChar]
  have hlen : (lowerChars (natText n)).length = 4 := by
    rw [hlc, htl]
    simp
  unfold hasUnsafe
  rw [containsSub_eq_false_of_short _ _ (by rw [hlen]; decide),
    containsSub_eq_false_of_short _ _ (by rw [hlen]; decide),
    containsSub_eq_false_of_short _ _ (by rw [hlen]; decide)]
  rfl

/-- Digit-only texts are validator-clean: validation is the identity. -/
theorem natText_clean (n : Nat) : validateItem (natText n) = .ok (natText n) := by
  have htl : (natText n).toList =
      [digitChar (n / 1000), digitChar (n / 100), digitChar (n / 10), digitChar n] := rfl
  have hchars : ∀ c ∈ (natText n).toList, isJsWhitespace c = false := by
    intro c hc
    rw [htl] at hc
    simp only [List.mem_cons, List.not_mem_nil, or_false] at hc
    rcases hc with rfl | rfl | rfl | rfl <;> exact isJsWhitespace_digitChar _
  have htrim : jsTrim (natText n) = natText n := by
    show (jsTrimList (natText n).toList).asString = natText n
    rw [jsTrimList_eq_self _ hchars]
    rfl
  rw [validateItem_ok_iff]
  refine ⟨htrim.symm, ?_, ?_, ?_⟩
  · rw [htrim]
    intro hco
    have h4 : (natText n).toList.length = 4 := by rw [htl]; simp
    rw [hco] at h4
    exact absurd h4 (by decide)
  · rw [htrim]
    have h4 : utf16Len (natText n) = 4 := by
      show ((natText n).toList.map utf16CharLen).sum = 4
      rw [htl]
      simp [utf16CharLen_digitChar]
    omega
  · rw [htrim]
    exact hasUnsafe_natText n

/-- The four-digit renderings of numbers below 10000 are pairwise distinct. -/
theorem natText_injOn (i j : Nat) (hi : i < 10000) (hj : j < 10000)
    (h : natText i = natText j) : i = j := by
  have hl : [digitChar (i / 1000), digitChar (i / 100), digitChar (i / 10), digitChar i] =
      [digitChar (j / 1000), digitChar (j / 100), digitChar (j / 10), digitChar j] :=
    congrArg String.toList h
  simp only [List.cons.injEq, and_true] at hl
  obtain ⟨h3, h2, h1, h0⟩ := hl
  have e3 := congrArg Char.toNat h3
  have e2 := congrArg Char.toNat h2
  have e1 := congrArg Char.toNat h1
  have e0 := congrArg Char.toNat h0
  rw [digitChar_toNat, digitChar_toNat] at e3 e2 e1 e0
  omega

/-- Mapping `natText` over an initial range keeps the list duplicate-free. -/
theorem natText_range_nodup (n : Nat) (hn : n ≤ 10000) :
    ((List.range n).map natText).Nodup := by
  refine List.Nodup.map_on ?_ (List.nodup_range n)
  intro x hx y hy hxy
  have hx' := List.mem_range.mp hx
  have hy' := List.mem_range.mp hy
  exact natText_injOn x y (by omega) (by omega) hxy

/-- Running the add-item handler over validator-clean pairwise-fresh texts
below capacity appends them all, in order. -/
theorem foldl_postItem_clean (texts : List String) :
    ∀ sp : SpaceData, (∀ t ∈ texts, validateItem t = .ok t) →
      (sp.items ++ texts).Nodup → sp.items.length + texts.length ≤ 1000 →
      texts.foldl (fun s t => (postItem s t).1) sp =
        { sp with items := sp.items ++ texts } := by
  induction texts with
  | nil =>
    intro sp _ _ _
    simp
  | cons t rest ih =>
    intro sp hclean hnd hcap
    simp only [List.length_cons] at hcap
    have hvt : validateItem t = .ok t := hclean t (List.mem_cons_self t rest)
    have hdisj := (List.nodup_append.mp hnd).2.2
    have htnot : t ∉ sp.items := fun hmem => hdisj hmem (List.mem_cons_self t rest)
    have hstep : (postItem sp t).1 = { sp with items := sp.items ++ [t] } := by
      unfold postItem
      simp only [hvt]
      rw [if_neg htnot, if_neg (by omega)]
      rfl
    have hassoc : (sp.items ++ [t]) ++ rest = sp.items ++ t :: rest := by
      simp
    rw [List.foldl_cons, hstep,
      ih { sp with items := sp.items ++ [t] }
        (fun x hx => hclean x (List.mem_cons_of_mem t hx))
        (by
          show ((sp.items ++ [t]) ++ rest).Nodup
          rw [hassoc]
          exact hnd)
        (by
          show (sp.items ++ [t]).length + rest.length ≤ 1000
          simp only [List.length_append, List.length_singleton]
          omega)]
    simp

/-- Every handler call preserves distinctness of the item texts. -/
theorem applyOp_nodup (sp : SpaceData) (op : Op) (h : sp.items.Nodup) :
    ((applyOp sp op).items).Nodup := by
  cases op with
  | add raw =>
    show ((postItem sp raw).1.items).Nodup
    unfold postItem
    cases hv : validateItem raw with
    | error e => exact h
    | ok v =>
      by_cases h1 : v ∈ sp.items
      · simp only [if_pos h1]
        exact h
      · by_cases h2 : 1000 ≤ sp.items.length
        · simp only [if_neg h1, if_pos h2]
          exact h
        · simp only [if_neg h1, if_neg h2]
          show (sp.items ++ [v]).Nodup
          rw [List.nodup_append]
          exact ⟨h, List.nodup_singleton v, List.disjoint_singleton.mpr h1⟩
  | remove idx =>
    show ((deleteItem sp idx).1.items).Nodup
    unfold deleteItem
    by_cases h1 : idx < 0
    · simp only [if_pos h1]
      exact h
    · by_cases h2 : sp.items.length ≤ idx.toNat
      · simp only [if_neg h1, if_pos h2]
        exact h
      · simp only [if_neg h1, if_neg h2]
        exact List.Nodup.sublist (List.eraseIdx_sublist _ _) h
  | pick sid raw idx now =>
    show ((postPicked sp sid raw idx now).1.items).Nodup
    unfold postPicked
    by_cases h1 : idx < 0
    · simp only [if_pos h1]
      exact h
    · cases hv : validateItem raw with
      | error e =>
        simp only [if_neg h1]
        exact h
      | ok v =>
        by_cases h2 : sp.items.length ≤ idx.toNat ∨ sp.items.getD idx.toNat "" ≠ v
        · simp only [if_neg h1, if_pos h2]
          exact h
        · simp only [if_neg h1, if_neg h2]
          exact h

/-! ### Claim theorems -/

/-- Claim C1: for every space and index, `removeItem` removes exactly the
element at the index (later elements shift down by one), returns the removed
value with the resulting items, clears `lastPicked` whenever a recorded pick
has `index >=` the removed index, fails with `InvalidIndex` on a negative
index and with `NotFound` on an index past the end. -/
theorem claim_C1_removeItem (sp : SpaceData) (index : Int) :
    (index < 0 → deleteItem sp index = (sp, .error .invalidIndex)) ∧
    (0 ≤ index → sp.items.length ≤ index.toNat →
      deleteItem sp index = (sp, .error .notFound)) ∧
    (0 ≤ index → ∀ (h : index.toNat < sp.items.length),
      (deleteItem sp index).1.items =
        sp.items.take index.toNat ++ sp.items.drop (index.toNat + 1) ∧
      (deleteItem sp index).2 =
        .ok (sp.items.get ⟨index.toNat, h⟩,
          sp.items.take index.toNat ++ sp.items.drop (index.toNat + 1)) ∧
      ∀ lp, sp.lastPicked = some lp → index.toNat ≤ lp.index →
        (deleteItem sp index).1.lastPicked = none) := by
  refine ⟨?_, ?_, ?_⟩
  · intro h
    unfold deleteItem
    rw [if_pos h]
  · intro h1 h2
    unfold deleteItem
    rw [if_neg (by omega), if_pos h2]
  · intro h1 h
    have hkey : deleteItem sp index =
        ({ items := sp.items.eraseIdx index.toNat,
           lastPicked := match sp.lastPicked with
             | some p => if index.toNat ≤ p.index then none else some p
             | none => none },
         .ok (sp.items.getD index.toNat "", sp.items.eraseIdx index.toNat)) := by
      unfold deleteItem
      rw [if_neg (by omega), if_neg (by omega)]
    refine ⟨?_, ?_, ?_⟩
    · rw [hkey]
      exact List.eraseIdx_eq_take_drop_succ _ _
    · rw [hkey]
      simp only [List.eraseIdx_eq_take_drop_succ]
      rw [List.getD_eq_getElem _ _ h]
      rfl
    · intro lp hlp hle
      rw [hkey]
      simp only [hlp]
      rw [if_pos hle]

/-- Witness for C1 at items `["A","B","C"]` with a pick recorded at index 1:
removing index 0 yields `["B","C"]` and clears the pick. -/
theorem claim_C1_removeItem_witness :
    (deleteItem ⟨["A", "B", "C"], some ⟨"B", 1, "t", "s"⟩⟩ 0).1.items = ["B", "C"] ∧
    (deleteItem ⟨["A", "B", "C"], some ⟨"B", 1, "t", "s"⟩⟩ 0).1.lastPicked = none := by
  have h := (claim_C1_removeItem ⟨["A", "B", "C"], some ⟨"B", 1, "t", "s"⟩⟩ 0).2.2
    (by decide) (by decide)
  exact ⟨h.1.trans (by decide), h.2.2 ⟨"B", 1, "t", "s"⟩ rfl (by decide)⟩

/-- Claim C2: with a non-negative index and a validator-accepted item,
`recordPick` fails with `Mismatch` exactly when the index is past the end or
the stored item there differs from the validated value, leaving the space
unchanged; on success it stores and returns a record of the validated item,
the index, a timestamp, and the first 8 characters of the namespace key. -/
theorem claim_C2_recordPick (sp : SpaceData) (sid raw : String) (index : Int)
    (now v : String) (hidx : 0 ≤ index) (hv : validateItem raw = .ok v) :
    (sp.items.length ≤ index.toNat ∨ sp.items.getD index.toNat "" ≠ v →
      postPicked sp sid raw index now = (sp, .error .mismatch)) ∧
    (∀ (h : index.toNat < sp.items.length), sp.items.get ⟨index.toNat, h⟩ = v →
      postPicked sp sid raw index now =
        ({ sp with lastPicked := some ⟨v, index.toNat, now, sid.take 8⟩ },
          .ok ⟨v, index.toNat, now, sid.take 8⟩)) := by
  unfold postPicked
  rw [if_neg (by omega)]
  simp only [hv]
  constructor
  · intro h
    rw [if_pos h]
  · intro h hget
    have hcond : ¬(sp.items.length ≤ index.toNat ∨
        sp.items.getD index.toNat "" ≠ v) := by
      push_neg
      refine ⟨h, ?_⟩
      rw [List.getD_eq_getElem _ _ h]
      exact hget
    rw [if_neg hcond]

/-- Witness for C2: picking `"A"` at index 0 from `["A"]` (sent as `" A "`)
records the trimmed item with the 8-character namespace fragment. -/
theorem claim_C2_recordPick_witness :
    postPicked ⟨["A"], none⟩ "0123456789abcdef" " A " 0 "t" =
      (⟨["A"], some ⟨"A", 0, "t", "01234567"⟩⟩, .ok ⟨"A", 0, "t", "01234567"⟩) := by
  have h := (claim_C2_recordPick ⟨["A"], none⟩ "0123456789abcdef" " A " 0 "t" "A"
    (by decide) (by decide)).2 (by decide) (by decide)
  exact h.trans (by decide)

/-- Claim C3: `addItem` fails with `DuplicateItem` when the validated value
already occurs, with `CapacityExceeded` when (otherwise) the list already
holds at least 1000 items, and otherwise appends the validated value at the
end and returns the updated items. -/
theorem claim_C3_addItem (sp : SpaceData) (raw v : String)
    (hv : validateItem raw = .ok v) :
    (v ∈ sp.items → postItem sp raw = (sp, .error .duplicateItem)) ∧
    (v ∉ sp.items → 1000 ≤ sp.items.length →
      postItem sp raw = (sp, .error .capacityExceeded)) ∧
    (v ∉ sp.items → sp.items.length < 1000 →
      postItem sp raw =
        ({ sp with items := sp.items ++ [v] }, .ok (sp.items ++ [v]))) := by
  unfold postItem
  simp only [hv]
  refine ⟨?_, ?_, ?_⟩
  · intro h
    rw [if_pos h]
  · intro h1 h2
    rw [if_neg h1, if_pos h2]
  · intro h1 h2
    rw [if_neg h1, if_neg (by omega)]
    rfl

/-- Witness for C3: adding `"B"` to `["A"]` succeeds and appends. -/
theorem claim_C3_addItem_witness :
    postItem ⟨["A"], none⟩ "B" = (⟨["A", "B"], none⟩, .ok ["A", "B"]) := by
  have h := (claim_C3_addItem ⟨["A"], none⟩ "B" "B" (by decide)).2.2
    (by decide) (by decide)
  exact h.trans (by decide)

set_option maxRecDepth 10000 in
/-- Counterexample to claim C4 as stated.  First, 1001 pairwise-distinct
texts (`capTexts`) run through the add-item handler in a serialization order
— a legitimate outcome of 1001 concurrent calls — end with 1000 items, not
1001, because the handler's capacity check rejects the 1001st call.  Second,
the pairwise-distinct raw texts `"A"` and `" A"` collide after validation
trims, so the second call fails as a duplicate and the final list has one
element, not two.  Third, in the modelled interleaving of two concurrent
first-access requests, the second request's INSERT hits the `space_id`
primary-key violation and its item is absent from the final list: a lost
update at N = 2. -/
theorem claim_C4_counterexample :
    capTexts.Nodup ∧ capTexts.length = 1001 ∧
    (addFold capTexts).items.length = 1000 ∧
    (addFold capTexts).items.length ≠ capTexts.length ∧
    (["A", " A"] : List String).Nodup ∧ (addFold ["A", " A"]).items.length = 1 ∧
    (raceFirstAccess "k" "A" "B").2 = false ∧
    listItems (raceFirstAccess "k" "A" "B").1 "k" = ["A"] := by
  have hnodup : capTexts.Nodup := by
    rw [capTexts]
    exact natText_range_nodup 1001 (by norm_num)
  have hlenCap : capTexts.length = 1001 := by simp [capTexts]
  have hsplit : capTexts = (List.range 1000).map natText ++ [natText 1000] := by
    rw [capTexts, show (1001 : Nat) = 1000 + 1 from rfl, List.range_succ,
      List.map_append, List.map_singleton]
  have hclean1000 : ∀ t ∈ (List.range 1000).map natText, validateItem t = .ok t := by
    intro t ht
    obtain ⟨m, hm, rfl⟩ := List.mem_map.mp ht
    exact natText_clean m
  have hnodup1000 : ((List.range 1000).map natText).Nodup :=
    natText_range_nodup 1000 (by norm_num)
  have hlen1000 : ((List.range 1000).map natText).length = 1000 := by simp
  have hA : List.foldl (fun s t => (postItem s t).1) emptySpace
      ((List.range 1000).map natText) =
      ({ items := (List.range 1000).map natText, lastPicked := none } : SpaceData) := by
    rw [foldl_postItem_clean _ emptySpace hclean1000
      (by simpa [emptySpace] using hnodup1000)
      (by simp [emptySpace, hlen1000])]
    simp [emptySpace]
  have hnotmem : natText 1000 ∉ (List.range 1000).map natText := by
    intro hmem
    obtain ⟨m, hm, hEq⟩ := List.mem_map.mp hmem
    have hm' := List.mem_range.mp hm
    have : m = 1000 := natText_injOn m 1000 (by omega) (by omega) hEq
    omega
  have hstuck : (postItem
      ({ items := (List.range 1000).map natText, lastPicked := none } : SpaceData)
      (natText 1000)).1 =
      ({ items := (List.range 1000).map natText, lastPicked := none } : SpaceData) := by
    unfold postItem
    simp only [natText_clean]
    rw [if_neg hnotmem, if_pos (by omega)]
  have hfold : (addFold capTexts).items.length = 1000 := by
    unfold addFold
    rw [hsplit, List.foldl_append, hA, List.foldl_cons, List.foldl_nil, hstuck]
    exact hlen1000
  refine ⟨hnodup, hlenCap, hfold, ?_, by decide, by decide, by decide, by decide⟩
  rw [hfold, hlenCap]
  omega

/-- Claim C4, amended: for every N up to the capacity of 1000, executing N
addItem calls with pairwise-distinct validator-clean item texts against the
same fresh namespace key, in any serialization order, results in a final
items list containing exactly all N texts (order unconstrained), with list
length equal to N. -/
theorem claim_C4_amended (texts : List String)
    (hclean : ∀ t ∈ texts, validateItem t = .ok t)
    (hdist : texts.Nodup) (hcap : texts.length ≤ 1000) :
    (addFold texts).items.length = texts.length ∧
    ∀ t, t ∈ (addFold texts).items ↔ t ∈ texts := by
  unfold addFold
  rw [foldl_postItem_clean texts emptySpace hclean
    (by simpa [emptySpace] using hdist) (by simpa [emptySpace] using hcap)]
  refine ⟨by simp [emptySpace], fun t => by simp [emptySpace]⟩

/-- Witness for the amended C4 on three distinct clean texts. -/
theorem claim_C4_amended_witness :
    (addFold ["A", "B", "C"]).items.length = ["A", "B", "C"].length :=
  (claim_C4_amended ["A", "B", "C"] (by decide) (by decide) (by decide)).1

/-- Claim C5: every space reachable from the fresh empty space by handler
operations has pairwise-distinct item texts. -/
theorem claim_C5_uniqueItems (ops : List Op) :
    ((ops.foldl applyOp emptySpace).items).Nodup := by
  have main : ∀ (ops : List Op) (sp : SpaceData), sp.items.Nodup →
      ((ops.foldl applyOp sp).items).Nodup := by
    intro ops
    induction ops with
    | nil => intro sp h; exact h
    | cons op rest ih =>
      intro sp h
      exact ih _ (applyOp_nodup sp op h)
  exact main ops emptySpace List.nodup_nil

/-- Claim C6: first access to an unseen key creates and returns the empty
space, so listing items yields `[]` and the last pick is absent. -/
theorem claim_C6_lazyInit (st : Store) (k : String)
    (h : lookupStore st k = none) :
    getSpace st k = (emptySpace, (k, emptySpace) :: st) ∧
    listItems st k = [] ∧ getPicked st k = none := by
  have hg : getSpace st k = (emptySpace, (k, emptySpace) :: st) := by
    unfold getSpace
    rw [h]
  exact ⟨hg, by simp [listItems, hg, emptySpace], by simp [getPicked, hg, emptySpace]⟩

/-- Witness for C6 on the empty store. -/
theorem claim_C6_lazyInit_witness :
    getSpace [] "k" = (emptySpace, [("k", emptySpace)]) ∧
    listItems [] "k" = [] ∧ getPicked [] "k" = none :=
  claim_C6_lazyInit [] "k" rfl

/-- Claim C7: `validate` trims leading and trailing whitespace (and nothing
else), fails with `Empty` exactly when the trimmed value is empty, with
`TooLong` exactly when (otherwise) the trimmed length exceeds 500, with
`UnsafeContent` exactly when (otherwise) the trimmed value matches the
case-insensitive denylist for script/iframe tags or `javascript:` URIs, and
otherwise succeeds with exactly the trimmed value. -/
theorem claim_C7_validateItem (x : String) :
    (∃ pre suf, x.toList = pre ++ (jsTrim x).toList ++ suf ∧
      pre.all isJsWhitespace = true ∧ suf.all isJsWhitespace = true) ∧
    (∀ c rest, (jsTrim x).toList = c :: rest → isJsWhitespace c = false) ∧
    (∀ c rest, (jsTrim x).toList.reverse = c :: rest → isJsWhitespace c = false) ∧
    (validateItem x = .error .empty ↔ jsTrim x = "") ∧
    (validateItem x = .error .tooLong ↔
      jsTrim x ≠ "" ∧ 500 < utf16Len (jsTrim x)) ∧
    (validateItem x = .error .unsafeContent ↔
      jsTrim x ≠ "" ∧ utf16Len (jsTrim x) ≤ 500 ∧ unsafeOccurs (jsTrim x)) ∧
    (∀ v, validateItem x = .ok v ↔
      v = jsTrim x ∧ jsTrim x ≠ "" ∧ utf16Len (jsTrim x) ≤ 500 ∧
      ¬ unsafeOccurs (jsTrim x)) := by
  refine ⟨?_, ?_, ?_, validateItem_empty_iff x, validateItem_tooLong_iff x, ?_, ?_⟩
  · obtain ⟨pre, suf, hsplit, hp, hs⟩ := jsTrimList_decomp x.toList
    exact ⟨pre, suf, by rw [toList_jsTrim]; exact hsplit, hp, hs⟩
  · intro c rest h
    exact jsTrimList_head_false x.toList c rest (by rw [← toList_jsTrim]; exact h)
  · intro c rest h
    exact jsTrimList_revHead_false x.toList c rest (by rw [← toList_jsTrim]; exact h)
  · rw [validateItem_unsafe_iff, hasUnsafe_iff]
  · intro v
    rw [validateItem_ok_iff, ← hasUnsafe_iff]
    simp

/-- Witness for C7: a trimmed, clean value validates to itself, and the head
of a trimmed value is not whitespace. -/
theorem claim_C7_validateItem_witness :
    validateItem " " = .error .empty ∧ isJsWhitespace 'h' = false :=
  ⟨((claim_C7_validateItem " ").2.2.2.1).mpr (by decide),
    (claim_C7_validateItem "  hi  ").2.1 'h' ['i'] (by decide)⟩

/-- Claim C8: key derivation is deterministic and always yields a 16-character
string of lower-case hex digits (a truncated hex-encoded SHA-256 digest). -/
theorem claim_C8_hashPassword (s : String) :
    hashPassword s = hashPassword s ∧
    (hashPassword s).length = 16 ∧
    ∀ c ∈ (hashPassword s).toList, c ∈ "0123456789abcdef".toList := by
  refine ⟨rfl, ?_, ?_⟩
  · show ((hexEncode (sha256Bytes (strBytes s))).take 16).asString.length = 16
    rw [length_asString, List.length_take, hexEncode_length, sha256Bytes_length]
    decide
  · intro c hc
    have hc' : c ∈ (hexEncode (sha256Bytes (strBytes s))).take 16 := hc
    exact hexEncode_mem _ c (List.take_subset _ _ hc')

set_option maxRecDepth 10000 in
/-- Witness for C8 at the password `"abc"`. -/
theorem claim_C8_hashPassword_witness :
    (hashPassword "abc").length = 16 ∧ 'b' ∈ "0123456789abcdef".toList :=
  ⟨(claim_C8_hashPassword "abc").2.1,
    (claim_C8_hashPassword "abc").2.2 'b' (by decide)⟩

/-- Claim C9: re-validating a value accepted by the validator succeeds and is
the identity. -/
theorem claim_C9_validateIdem (x v : String) (h : validateItem x = .ok v) :
    validateItem v = .ok v := by
  rw [validateItem_ok_iff] at h
  obtain ⟨hv, hne, hlen, hsafe⟩ := h
  subst hv
  rw [validateItem_ok_iff, jsTrim_idem]
  exact ⟨rfl, hne, hlen, hsafe⟩

/-- Witness for C9 at `"  hi  "`. -/
theorem claim_C9_validateIdem_witness : validateItem "hi" = .ok "hi" :=
  claim_C9_validateIdem "  hi  " "hi" (by decide)

/-- Claim C10: an `addItem` call never changes `lastPicked`, whether it
succeeds or fails. -/
theorem claim_C10_addItem_frame (sp : SpaceData) (raw : String) :
    ((postItem sp raw).1).lastPicked = sp.lastPicked := by
  unfold postItem
  cases hvv : validateItem raw with
  | error e => rfl
  | ok v =>
    by_cases h1 : v ∈ sp.items
    · simp [h1]
    · by_cases h2 : 1000 ≤ sp.items.length
      · simp [h1, h2]
      · simp [h1, h2, dsAddItem]

end Youpick
